import Mathlib

/-!
Verification of the Semian simple sliding window (`src/ext/semian/sliding_window.c`).

The shallow embedding below translates the shared-memory circular buffer and its
operations into Lean. All index arithmetic in the C file is on non-negative
`int` values well below `INT_MAX` (indices are bounded by `max_size <= 8192`),
so those quantities are modelled as `Nat`; the single place where a C `%` can
see a negative dividend (`semian_simple_sliding_window_last` on an empty
window) is modelled with `Int` and C's truncated remainder `Int.tmod`.
Stored samples are modelled as `Int`.

The cross-process mutex discipline of `reject!`/`push` is modelled by an
explicit `lockHeld` flag threaded through the control flow: `sem_meta_unlock`
sets it to `false`; an error raised (`rb_raise` after `rb_yield`, or a failing
`RB_NUM2INT` conversion) while inside the critical section leaves it `true`.
-/

namespace SlidingWindow

/-- Modelled from the spec: the header `sliding_window.h` (not part of the
sources given) fixes the compile-time bound `SLIDING_WINDOW_MAX_SIZE` on the
backing array; the spec calls it `CAP_MAX` and gives 8192 as its value. -/
def SLIDING_WINDOW_MAX_SIZE : Nat := 8192

/-- Modelled from the spec (record layout of `semian_simple_sliding_window_shared_t`
from `sliding_window.h`, §3 of the spec): `max_size` (capacity), `length`,
`start`, `end` and the backing `data` array. The field `end` is a Lean keyword,
so it is called `end_` here. The backing array is modelled as a `List Int`;
validity predicates require `data.length = max_size`, which covers every
in-bounds access the C code performs (all its non-negative indices are reduced
mod `max_size` or mod a value `<= max_size`). -/
structure WindowRecord where
  max_size : Nat
  length : Nat
  start : Nat
  end_ : Nat
  data : List Int
deriving DecidableEq

/-- `semian_simple_sliding_window_initialize`: after `check_max_size_arg`
validates `0 < max_size <= SLIDING_WINDOW_MAX_SIZE`, the shared record is
unconditionally reset: `length = start = end = 0`, capacity overwritten.
The C code never zeroes `data`; stale cells are modelled as `0`. -/
def initWindow (c : Nat) : WindowRecord :=
  ⟨c, 0, 0, 0, List.replicate c 0⟩

/-- `semian_simple_sliding_window_push` (lines 240-252 of the C file):
if `length == max_size`, evict the oldest sample
(`length--; start = (start+1) % max_size`), then write at `index = end`,
increment `length`, store the value, and advance `end = (end+1) % max_size`. -/
def push (W : WindowRecord) (v : Int) : WindowRecord :=
  let W1 := if W.length = W.max_size then
      { W with length := W.length - 1, start := (W.start + 1) % W.max_size }
    else W
  let index := W1.end_
  { W1 with
    length := W1.length + 1,
    data := W1.data.set index v,
    end_ := (W1.end_ + 1) % W1.max_size }

/-- Folding `push` over a list of values, oldest first. -/
def pushAll (W : WindowRecord) (vs : List Int) : WindowRecord :=
  vs.foldl push W

/-- `semian_simple_sliding_window_values` (lines 140-161): for
`i in 0..length-1` read `data[(start + i) % max_size]`, oldest to newest. -/
def values (W : WindowRecord) : List Int :=
  (List.range W.length).map (fun i => W.data.getD ((W.start + i) % W.max_size) 0)

/-- `semian_simple_sliding_window_clear` (lines 181-197, bound to Ruby method
`destroy`): reset `length = start = end = 0`; `data` is untouched. -/
def clearWin (W : WindowRecord) : WindowRecord :=
  { W with length := 0, start := 0, end_ := 0 }

/-- The index computed by `semian_simple_sliding_window_last` (line 173):
`(window->start + window->length - 1) % window->max_size` in C `int`
arithmetic, i.e. with truncated remainder, which is negative when
`start = length = 0`. -/
def lastIndex (W : WindowRecord) : Int :=
  Int.tmod ((W.start : Int) + (W.length : Int) - 1) (W.max_size : Int)

/-- A C array read `data[i]`: defined (`some`) exactly when `0 <= i` and `i`
is inside the array; an out-of-bounds access is `none`. -/
def readData (W : WindowRecord) (i : Int) : Option Int :=
  if 0 ≤ i ∧ i.toNat < W.data.length then some (W.data.getD i.toNat 0) else none

/-- `semian_simple_sliding_window_last` (lines 163-179): read
`data[(start + length - 1) % max_size]` with C `int` semantics. -/
def last (W : WindowRecord) : Option Int :=
  readData W (lastIndex W)

/-- One accepted removal inside `reject!` (lines 224-225):
`window->start = (window->start + 1) % window->length; window->length--;`.
Note the modulus is the current shared `window->length`, not `max_size`. -/
def removeOne (W : WindowRecord) : WindowRecord :=
  { W with start := (W.start + 1) % W.length, length := W.length - 1 }

/-- `removeN c W` applies `c` accepted removals to `W`. -/
def removeN : Nat → WindowRecord → WindowRecord
  | 0, W => W
  | c + 1, W => removeOne (removeN c W)

/-- Result of `reject!`: normal return, the `reject! must delete monotonically`
`rb_raise` (NonMonotonicRemoval), or — as an explicit marker for the C
undefined behaviour `% 0` — a modulus-by-zero at the `start` update. Each
constructor carries the window state left behind in shared memory. -/
inductive RejectResult where
  | ok (W : WindowRecord)
  | nonMonotonic (W : WindowRecord)
  | modZero (W : WindowRecord)
deriving DecidableEq

/-- The shared-memory state left behind by a `reject!` call. -/
def RejectResult.state : RejectResult → WindowRecord
  | .ok W => W
  | .nonMonotonic W => W
  | .modZero W => W

/-- Bool test for the modulus-by-zero marker. -/
def RejectResult.isModZero : RejectResult → Bool
  | .modZero _ => true
  | _ => false

/-- The loop of `semian_simple_sliding_window_reject` (lines 206-232).
`s0`/`l0` are the local copies `int start = window->start; int length =
window->length;` taken before the loop; the loop counter `i` runs
`0 .. l0 - 1` and is represented by the countdown `rem` (`i = l0 - rem`).
Each iteration reads `data[(s0 + i) % l0]`, yields it to the predicate, and on
a `true` result either removes the head sample (when `cleared++ == i`) or
raises NonMonotonicRemoval. The `0 < W.length` test marks the C UB `% 0`
explicitly; it never fires (see `reject_no_mod_zero`). -/
def rejectGo (p : Int → Bool) (s0 l0 : Nat) : Nat → Nat → WindowRecord → RejectResult
  | 0, _cleared, W => .ok W
  | rem + 1, cleared, W =>
    let i := l0 - (rem + 1)
    if p (W.data.getD ((s0 + i) % l0) 0) then
      if cleared = i then
        if 0 < W.length then
          rejectGo p s0 l0 rem (cleared + 1) (removeOne W)
        else .modZero W
      else .nonMonotonic W
    else rejectGo p s0 l0 rem cleared W

/-- `semian_simple_sliding_window_reject` (`reject!`). -/
def reject (p : Int → Bool) (W : WindowRecord) : RejectResult :=
  rejectGo p W.start W.length W.length 0 W

/-- The predicate results in loop order: entry `i` is
`p data[(start + i) % length]` for `i in 0..length-1`, computed from the state
at entry to `reject!` (the loop's local `start`/`length` snapshots). -/
def flags (p : Int → Bool) (W : WindowRecord) : List Bool :=
  (List.range W.length).map (fun i => p (W.data.getD ((W.start + i) % W.length) 0))

/-- Number of leading `true` results: the removals `reject!` accepts. -/
def leadTrue (bs : List Bool) : Nat := (bs.takeWhile id).length

/-- `true` iff all `true` results form a contiguous prefix, i.e. the k-th
`true` occurs at position k for every k (no violation of monotonicity). -/
def prefixOnly (bs : List Bool) : Bool :=
  (bs.drop (leadTrue bs)).all (fun b => !b)

/-- Reference description of `reject!` computed from the entry snapshot alone:
the first `leadTrue` samples (in the fixed `(start + i) % length` order) are
removed; if any later predicate result is `true` the call raises
NonMonotonicRemoval, otherwise it returns normally. -/
def rejectSpec (p : Int → Bool) (W : WindowRecord) : RejectResult :=
  if prefixOnly (flags p W) then .ok (removeN (leadTrue (flags p W)) W)
  else .nonMonotonic (removeN (leadTrue (flags p W)) W)

/-- Rendering of claim C4's reading of the loop, in which the modulus used to
compute the read index shrinks as removals decrement `window->length`: it
reads `data[(s0 + i) % W.length]` with the CURRENT length, instead of the
snapshot `l0` the C code actually uses. -/
def rejectShrinkGo (p : Int → Bool) (s0 l0 : Nat) : Nat → Nat → WindowRecord → RejectResult
  | 0, _cleared, W => .ok W
  | rem + 1, cleared, W =>
    let i := l0 - (rem + 1)
    if p (W.data.getD ((s0 + i) % W.length) 0) then
      if cleared = i then
        if 0 < W.length then
          rejectShrinkGo p s0 l0 rem (cleared + 1) (removeOne W)
        else .modZero W
      else .nonMonotonic W
    else rejectShrinkGo p s0 l0 rem cleared W

/-- `reject!` as claim C4 describes it (shrinking read modulus). -/
def rejectShrink (p : Int → Bool) (W : WindowRecord) : RejectResult :=
  rejectShrinkGo p W.start W.length W.length 0 W

/-- Structural well-formedness maintained by every operation: positive
capacity, backing array of size `max_size`, and all cursors in range. -/
abbrev Valid (W : WindowRecord) : Prop :=
  W.data.length = W.max_size ∧ 0 < W.max_size ∧ W.length ≤ W.max_size ∧
    W.start < W.max_size ∧ W.end_ < W.max_size

/-- `Valid` plus the documented cursor invariant
`end == (start + length) mod capacity`. -/
abbrev SV (W : WindowRecord) : Prop :=
  W.data.length = W.max_size ∧ 0 < W.max_size ∧ W.length ≤ W.max_size ∧
    W.start < W.max_size ∧ W.end_ = (W.start + W.length) % W.max_size

/-- States reachable from a fresh window by the public mutating operations
(`initialize`, `push`, `clear`/`destroy`, `reject!` — the latter whether it
returns normally or raises). -/
inductive Reachable : WindowRecord → Prop where
  | mkInit (c : Nat) : 0 < c → c ≤ SLIDING_WINDOW_MAX_SIZE → Reachable (initWindow c)
  | mkPush (W : WindowRecord) (v : Int) : Reachable W → Reachable (push W v)
  | mkClear (W : WindowRecord) : Reachable W → Reachable (clearWin W)
  | mkReject (W : WindowRecord) (p : Int → Bool) :
      Reachable W → Reachable ((reject p W).state)

/-! ### Lock-discipline model

`Outcome`/`LockedResult` record how an operation leaves the cross-process
mutex. For `reject!` the predicate is `Int → Except Unit Bool` so a Ruby
block that raises can be modelled (`.error`); for `push` the pushed value is
`Option Int`, `none` standing for an input on which `RB_NUM2INT` raises. -/

/-- How a critical section ends. -/
inductive Outcome where
  | ok
  | nonMonotonic
  | predExc
  | convExc
  | modZero
deriving DecidableEq

/-- Whether the C control flow reaches the end of the operation with the
semaphore still held, given how the critical section ended. -/
def holdsLock : Outcome → Bool
  | .predExc => true
  | .convExc => true
  | .modZero => true
  | _ => false

/-- Result of an operation in the lock model. -/
structure LockedResult where
  outcome : Outcome
  lockHeld : Bool
  state : WindowRecord

/-- The `reject!` loop with the mutex modelled. `rb_yield` raising an
exception (`p _ = .error _`) propagates out of the function without passing
`sem_meta_unlock`, so the lock stays held; the NonMonotonicRemoval path
executes `sem_meta_unlock(res->sem_id)` before `rb_raise` (line 221), so the
lock is released; normal return unlocks at line 230. -/
def rejectLockedGo (p : Int → Except Unit Bool) (s0 l0 : Nat) :
    Nat → Nat → WindowRecord → LockedResult
  | 0, _cleared, W => ⟨.ok, false, W⟩
  | rem + 1, cleared, W =>
    let i := l0 - (rem + 1)
    match p (W.data.getD ((s0 + i) % l0) 0) with
    | .error _ => ⟨.predExc, true, W⟩
    | .ok b =>
      if b then
        if cleared = i then
          if 0 < W.length then
            rejectLockedGo p s0 l0 rem (cleared + 1) (removeOne W)
          else ⟨.modZero, true, W⟩
        else ⟨.nonMonotonic, false, W⟩
      else rejectLockedGo p s0 l0 rem cleared W

/-- `reject!` in the lock model. -/
def rejectLocked (p : Int → Except Unit Bool) (W : WindowRecord) : LockedResult :=
  rejectLockedGo p W.start W.length W.length 0 W

/-- `push` in the lock model: `RB_NUM2INT(value)` is evaluated at
`window->data[index] = RB_NUM2INT(value);` (line 250), inside the critical
section and after the eviction and `length++`; if it raises (`v = none`) the
function is left without reaching `sem_meta_unlock`. -/
def pushLocked (W : WindowRecord) (v : Option Int) : LockedResult :=
  let W1 := if W.length = W.max_size then
      { W with length := W.length - 1, start := (W.start + 1) % W.max_size }
    else W
  let index := W1.end_
  let W2 := { W1 with length := W1.length + 1 }
  match v with
  | none => ⟨.convExc, true, W2⟩
  | some x =>
    ⟨.ok, false, { W2 with data := W2.data.set index x, end_ := (W2.end_ + 1) % W2.max_size }⟩

/-! ### Concrete states used by witnesses and counterexamples -/

/-- Capacity-3 window after pushing `10, 20, 30, 40`: wrapped, full,
`start = 1`, `end = 1`, `data = [40, 20, 30]`, `values = [20, 30, 40]`. -/
def W340 : WindowRecord := pushAll (initWindow 3) [10, 20, 30, 40]

/-- Predicate matching the two oldest samples of `W340`. -/
def p23 : Int → Bool := fun x => x == 20 || x == 30

/-- Capacity-5 window holding `[1, 2, 3, 4, 5]`. -/
def W5 : WindowRecord := pushAll (initWindow 5) [1, 2, 3, 4, 5]

/-- The predicate `x == 1 or x == 3` of the monotonic-reject violation table. -/
def p13 : Int → Bool := fun x => x == 1 || x == 3

/-- Capacity-4 window holding `[10, 20, 30, 40]`. -/
def W4 : WindowRecord := pushAll (initWindow 4) [10, 20, 30, 40]

/-- Predicate matching only the oldest sample of `W4`. -/
def p10 : Int → Bool := fun x => x == 10

/-- Window state after `reject! p23` on `W340` and two further pushes:
full again (`values = [50, 60, 40]`) but with the `end` invariant broken. -/
def Wfull : WindowRecord := pushAll (RejectResult.state (reject p23 W340)) [50, 60]

/-- Capacity-3 window holding the single sample `10`. -/
def W1p : WindowRecord := push (initWindow 3) 10

/-- A Ruby block that raises on every yielded sample. -/
def pexc : Int → Except Unit Bool := fun _ => .error ()

/-- The state `reject! p23` leaves behind on `W340`: one live sample,
`start = length = end = 1`, so `(start + length) % max_size = 2 ≠ 1 = end`. -/
def c2state : WindowRecord := ⟨3, 1, 1, 1, [40, 20, 30]⟩

/-- A full capacity-3 window reached by pushes only. -/
def Wf3 : WindowRecord := pushAll (initWindow 3) [1, 2, 3]

/-- The everywhere-false predicate (a `reject!` block that removes nothing). -/
def pfalse : Int → Bool := fun _ => false

/-- Capacity-3 window holding `[4, 5]`. -/
def W45 : WindowRecord := pushAll (initWindow 3) [4, 5]

/-! ## Helper lemmas -/

lemma getD_set_self (l : List Int) : ∀ (i : Nat) (a d : Int), i < l.length →
    (l.set i a).getD i d = a := by
  induction l with
  | nil => intro i a d h; simp at h
  | cons x xs ih =>
    intro i a d h
    cases i with
    | zero => rfl
    | succ n => simpa using ih n a d (by simpa using h)

lemma getD_set_ne (l : List Int) : ∀ (i j : Nat) (a d : Int), i ≠ j →
    (l.set i a).getD j d = l.getD j d := by
  induction l with
  | nil => intro i j a d _; simp
  | cons x xs ih =>
    intro i j a d h
    cases i with
    | zero =>
      cases j with
      | zero => exact absurd rfl h
      | succ m => simp
    | succ n =>
      cases j with
      | zero => simp
      | succ m => simpa using ih n m a d (fun e => h (by rw [e]))

lemma getD_map_range' (g : Nat → Int) (d : Int) :
    ∀ (n s i : Nat), i < n → ((List.range' s n).map g).getD i d = g (s + i) := by
  intro n
  induction n with
  | zero => intro s i h; exact absurd h (Nat.not_lt_zero i)
  | succ n ih =>
    intro s i h
    rw [List.range'_succ, List.map_cons]
    cases i with
    | zero => simp
    | succ m =>
      rw [List.getD_cons_succ]
      have := ih (s + 1) m (by omega)
      rw [this]
      congr 1
      omega

lemma getD_map_range (g : Nat → Int) (d : Int) (n i : Nat) (h : i < n) :
    ((List.range n).map g).getD i d = g i := by
  have h2 := getD_map_range' g d n 0 i h
  rw [List.range_eq_range']
  simpa using h2

lemma takeWhile_id_replicate_append (c : Nat) (l : List Bool) :
    (List.replicate c true ++ l).takeWhile id = List.replicate c true ++ l.takeWhile id := by
  induction c with
  | zero => simp
  | succ n ih => simp [List.replicate_succ, List.takeWhile_cons, ih]

lemma takeWhile_id_replicate_false (k : Nat) :
    (List.replicate k false).takeWhile id = [] := by
  cases k with
  | zero => rfl
  | succ n => simp [List.replicate_succ, List.takeWhile_cons]

lemma leadTrue_shape (c k : Nat) :
    leadTrue (List.replicate c true ++ List.replicate k false) = c := by
  unfold leadTrue
  rw [takeWhile_id_replicate_append, takeWhile_id_replicate_false]
  simp

lemma leadTrue_shape_cons (c : Nat) (l : List Bool) :
    leadTrue (List.replicate c true ++ false :: l) = c := by
  unfold leadTrue
  rw [takeWhile_id_replicate_append]
  simp [List.takeWhile_cons]

lemma all_not_replicate_false (k : Nat) :
    (List.replicate k false).all (fun b => !b) = true := by
  simp [List.all_eq_true, List.mem_replicate]

lemma leadTrue_le (bs : List Bool) : leadTrue bs ≤ bs.length :=
  (List.takeWhile_prefix (l := bs) id).length_le

lemma flags_length (p : Int → Bool) (W : WindowRecord) : (flags p W).length = W.length := by
  simp [flags]

lemma mod_shift_ne (s max i j : Nat) (hij : i ≠ j) (hi : i < max) (hj : j < max) :
    (s + i) % max ≠ (s + j) % max := by
  intro h
  have h2 : i ≡ j [MOD max] := Nat.ModEq.add_left_cancel' s h
  have h3 : i % max = j % max := h2
  rw [Nat.mod_eq_of_lt hi, Nat.mod_eq_of_lt hj] at h3
  exact hij h3

lemma push_of_full (W : WindowRecord) (v : Int) (h : W.length = W.max_size) :
    push W v = { W with length := W.length - 1 + 1,
                        start := (W.start + 1) % W.max_size,
                        data := W.data.set W.end_ v,
                        end_ := (W.end_ + 1) % W.max_size } := by
  simp [push, h]

lemma push_of_not_full (W : WindowRecord) (v : Int) (h : W.length ≠ W.max_size) :
    push W v = { W with length := W.length + 1,
                        data := W.data.set W.end_ v,
                        end_ := (W.end_ + 1) % W.max_size } := by
  simp [push, h]

lemma push_max (W : WindowRecord) (v : Int) : (push W v).max_size = W.max_size := by
  by_cases h : W.length = W.max_size
  · rw [push_of_full W v h]
  · rw [push_of_not_full W v h]

lemma push_spec_not_full (W : WindowRecord) (v : Int) (hSV : SV W)
    (hlen : W.length < W.max_size) :
    SV (push W v) ∧ values (push W v) = values W ++ [v] ∧
      (push W v).length = W.length + 1 := by
  obtain ⟨hd, hm, _hle, hs, he⟩ := hSV
  have hend_lt : W.end_ < W.data.length := by
    rw [he, hd]; exact Nat.mod_lt _ hm
  rw [push_of_not_full W v (Nat.ne_of_lt hlen)]
  refine ⟨⟨?_, hm, ?_, hs, ?_⟩, ?_, rfl⟩
  · simp [hd]
  · show W.length + 1 ≤ W.max_size
    omega
  · show (W.end_ + 1) % W.max_size = (W.start + (W.length + 1)) % W.max_size
    rw [he, Nat.mod_add_mod]
    rfl
  · show (List.range (W.length + 1)).map
        (fun i => (W.data.set W.end_ v).getD ((W.start + i) % W.max_size) 0) =
      values W ++ [v]
    rw [List.range_succ, List.map_append, List.map_cons, List.map_nil]
    congr 1
    · unfold values
      apply List.map_congr_left
      intro i hi
      have hi' : i < W.length := List.mem_range.mp hi
      apply getD_set_ne
      rw [he]
      exact mod_shift_ne W.start W.max_size W.length i (by omega) hlen (by omega)
    · rw [← he, getD_set_self W.data W.end_ v 0 hend_lt]

lemma push_spec_full (W : WindowRecord) (v : Int) (hSV : SV W)
    (hlen : W.length = W.max_size) :
    SV (push W v) ∧ values (push W v) = (values W).tail ++ [v] ∧
      (push W v).length = W.max_size := by
  obtain ⟨hd, hm, _hle, hs, he⟩ := hSV
  have hend : W.end_ = W.start := by
    rw [he, hlen, Nat.add_mod_right, Nat.mod_eq_of_lt hs]
  have hend_lt : W.end_ < W.data.length := by rw [hend, hd]; exact hs
  have hlen1 : W.length - 1 + 1 = W.max_size := by omega
  rw [push_of_full W v hlen]
  have hidx : ∀ i : Nat,
      ((W.start + 1) % W.max_size + i) % W.max_size = (W.start + (1 + i)) % W.max_size := by
    intro i; rw [Nat.mod_add_mod]; congr 1; omega
  refine ⟨⟨?_, hm, ?_, ?_, ?_⟩, ?_, ?_⟩
  · simp [hd]
  · show W.length - 1 + 1 ≤ W.max_size
    omega
  · show (W.start + 1) % W.max_size < W.max_size
    exact Nat.mod_lt _ hm
  · show (W.end_ + 1) % W.max_size =
      ((W.start + 1) % W.max_size + (W.length - 1 + 1)) % W.max_size
    rw [hend, hlen1, Nat.add_mod_right, Nat.mod_eq_of_lt (Nat.mod_lt _ hm)]
  · show (List.range (W.length - 1 + 1)).map
        (fun i => (W.data.set W.end_ v).getD
          (((W.start + 1) % W.max_size + i) % W.max_size) 0) =
      (values W).tail ++ [v]
    rw [hlen1]
    have hr : List.range W.max_size = List.range (W.max_size - 1) ++ [W.max_size - 1] := by
      conv_lhs => rw [show W.max_size = W.max_size - 1 + 1 by omega]
      rw [List.range_succ]
    have ht : (values W).tail =
        (List.range (W.max_size - 1)).map
          (fun i => W.data.getD ((W.start + Nat.succ i) % W.max_size) 0) := by
      unfold values
      rw [hlen]
      have hr2 : List.range W.max_size = 0 :: (List.range (W.max_size - 1)).map Nat.succ := by
        conv_lhs => rw [show W.max_size = W.max_size - 1 + 1 by omega]
        rw [List.range_succ_eq_map]
      rw [hr2, List.map_cons, List.tail_cons, List.map_map]
      rfl
    rw [hr, List.map_append, List.map_cons, List.map_nil, ht]
    congr 1
    · apply List.map_congr_left
      intro i hi
      have hi' : i < W.max_size - 1 := List.mem_range.mp hi
      rw [hidx i]
      rw [getD_set_ne W.data W.end_ ((W.start + (1 + i)) % W.max_size) v 0 ?hne]
      case hne =>
        rw [hend]
        have hmn := mod_shift_ne W.start W.max_size 0 (1 + i) (by omega) hm (by omega)
        intro hcontra
        apply hmn
        rw [Nat.add_zero, Nat.mod_eq_of_lt hs]
        exact hcontra
      have h1i : W.start + (1 + i) = W.start + Nat.succ i := by omega
      rw [h1i]
    · have h1m : 1 + (W.max_size - 1) = W.max_size := by omega
      rw [hidx (W.max_size - 1), h1m, Nat.add_mod_right, Nat.mod_eq_of_lt hs, ← hend,
        getD_set_self W.data W.end_ v 0 hend_lt]
  · show W.length - 1 + 1 = W.max_size
    omega

lemma pushAll_append_single (W : WindowRecord) (l : List Int) (x : Int) :
    pushAll W (l ++ [x]) = push (pushAll W l) x := by
  simp [pushAll, List.foldl_append]

lemma SV_initWindow (c : Nat) (hc : 0 < c) : SV (initWindow c) := by
  refine ⟨by simp [initWindow], hc, by simp [initWindow], hc, by simp [initWindow]⟩

lemma values_initWindow (c : Nat) : values (initWindow c) = [] := by
  simp [values, initWindow]

lemma pushAll_spec (c : Nat) (hc : 0 < c) (vs : List Int) :
    SV (pushAll (initWindow c) vs) ∧ (pushAll (initWindow c) vs).max_size = c ∧
      (pushAll (initWindow c) vs).length = min vs.length c ∧
      values (pushAll (initWindow c) vs) = vs.drop (vs.length - c) := by
  induction vs using List.reverseRecOn with
  | nil =>
    refine ⟨SV_initWindow c hc, rfl, by simp [pushAll, initWindow], ?_⟩
    simp [pushAll, values_initWindow]
  | append_singleton l x ih =>
    obtain ⟨sv, hmax, hlen, hvals⟩ := ih
    rw [pushAll_append_single]
    by_cases hfull : c ≤ l.length
    · have hlenc : (pushAll (initWindow c) l).length = (pushAll (initWindow c) l).max_size := by
        rw [hlen, hmax]; omega
      obtain ⟨sv', hv', hl'⟩ :=
        push_spec_full (pushAll (initWindow c) l) x sv hlenc
      refine ⟨sv', by rw [push_max, hmax], ?_, ?_⟩
      · rw [hl', hmax]
        simp
        omega
      · rw [hv', hvals, List.tail_drop]
        have hk : l.length - c + 1 ≤ l.length := by omega
        have he2 : (l ++ [x]).length - c = l.length - c + 1 := by
          simp
          omega
        rw [he2, List.drop_append_of_le_length hk]
    · have hlt : (pushAll (initWindow c) l).length < (pushAll (initWindow c) l).max_size := by
        rw [hlen, hmax]; omega
      obtain ⟨sv', hv', hl'⟩ :=
        push_spec_not_full (pushAll (initWindow c) l) x sv hlt
      refine ⟨sv', by rw [push_max, hmax], ?_, ?_⟩
      · rw [hl', hlen]
        simp
        omega
      · rw [hv', hvals]
        have h0 : l.length - c = 0 := by omega
        have h0' : l.length + 1 - c = 0 := by omega
        simp [h0, h0']

lemma clear_valid (W : WindowRecord) (h : Valid W) : Valid (clearWin W) := by
  obtain ⟨hd, hm, _, _, _⟩ := h
  exact ⟨hd, hm, Nat.zero_le _, hm, hm⟩

lemma push_valid (W : WindowRecord) (v : Int) (h : Valid W) : Valid (push W v) := by
  obtain ⟨hd, hm, hle, hs, _⟩ := h
  by_cases hfull : W.length = W.max_size
  · rw [push_of_full W v hfull]
    refine ⟨by simp [hd], hm, ?_, ?_, ?_⟩
    · show W.length - 1 + 1 ≤ W.max_size
      omega
    · show (W.start + 1) % W.max_size < W.max_size
      exact Nat.mod_lt _ hm
    · show (W.end_ + 1) % W.max_size < W.max_size
      exact Nat.mod_lt _ hm
  · rw [push_of_not_full W v hfull]
    refine ⟨by simp [hd], hm, ?_, hs, ?_⟩
    · show W.length + 1 ≤ W.max_size
      omega
    · show (W.end_ + 1) % W.max_size < W.max_size
      exact Nat.mod_lt _ hm

lemma removeN_data (c : Nat) (W : WindowRecord) : (removeN c W).data = W.data := by
  induction c with
  | zero => rfl
  | succ n ih => simp [removeN, removeOne, ih]

lemma removeN_max (c : Nat) (W : WindowRecord) : (removeN c W).max_size = W.max_size := by
  induction c with
  | zero => rfl
  | succ n ih => simp [removeN, removeOne, ih]

lemma removeN_end (c : Nat) (W : WindowRecord) : (removeN c W).end_ = W.end_ := by
  induction c with
  | zero => rfl
  | succ n ih => simp [removeN, removeOne, ih]

lemma removeN_length (c : Nat) (W : WindowRecord) : (removeN c W).length = W.length - c := by
  induction c with
  | zero => rfl
  | succ n ih =>
    show (removeOne (removeN n W)).length = W.length - (n + 1)
    simp [removeOne, ih]
    omega

lemma removeOne_valid (W : WindowRecord) (h : Valid W) (hl : 0 < W.length) :
    Valid (removeOne W) := by
  obtain ⟨hd, hm, hle, _, hee⟩ := h
  refine ⟨hd, hm, ?_, ?_, hee⟩
  · show W.length - 1 ≤ W.max_size
    omega
  · show (W.start + 1) % W.length < W.max_size
    exact lt_of_lt_of_le (Nat.mod_lt _ hl) hle

lemma removeN_valid : ∀ (c : Nat) (W : WindowRecord), Valid W → c ≤ W.length →
    Valid (removeN c W) := by
  intro c
  induction c with
  | zero => intro W h _; exact h
  | succ n ih =>
    intro W h hle
    show Valid (removeOne (removeN n W))
    refine removeOne_valid _ (ih W h (by omega)) ?_
    rw [removeN_length]
    omega

lemma rejectGo_eq_spec (p : Int → Bool) (W0 : WindowRecord) :
    ∀ (rem cleared : Nat), rem ≤ W0.length → cleared ≤ W0.length - rem →
      (List.range (W0.length - rem)).map
          (fun j => p (W0.data.getD ((W0.start + j) % W0.length) 0)) =
        List.replicate cleared true ++
          List.replicate (W0.length - rem - cleared) false →
      rejectGo p W0.start W0.length rem cleared (removeN cleared W0) = rejectSpec p W0 := by
  intro rem
  induction rem with
  | zero =>
    intro cleared _hrem hcl hinv
    show RejectResult.ok (removeN cleared W0) = rejectSpec p W0
    rw [Nat.sub_zero] at hinv hcl
    have hF : flags p W0 = List.replicate cleared true ++
        List.replicate (W0.length - cleared) false := hinv
    unfold rejectSpec
    have hpre : prefixOnly (List.replicate cleared true ++
        List.replicate (W0.length - cleared) false) = true := by
      unfold prefixOnly
      rw [leadTrue_shape]
      have hdl := List.drop_left (List.replicate cleared (true : Bool))
          (List.replicate (W0.length - cleared) (false : Bool))
      rw [List.length_replicate] at hdl
      rw [hdl]
      exact all_not_replicate_false _
    rw [hF, leadTrue_shape]
    simp [hpre]
  | succ rem ih =>
    intro cleared hrem hcl hinv
    have hconsume : W0.length - rem = (W0.length - (rem + 1)) + 1 := by omega
    have hrange : List.range (W0.length - rem) =
        List.range (W0.length - (rem + 1)) ++ [W0.length - (rem + 1)] := by
      rw [hconsume, List.range_succ]
    cases hgi : p (W0.data.getD ((W0.start + (W0.length - (rem + 1))) % W0.length) 0) with
    | false =>
      have hstep : rejectGo p W0.start W0.length (rem + 1) cleared (removeN cleared W0) =
          rejectGo p W0.start W0.length rem cleared (removeN cleared W0) := by
        simp only [rejectGo]
        rw [removeN_data, hgi]
        simp
      rw [hstep]
      apply ih cleared (by omega) (by omega)
      rw [hrange]
      simp only [List.map_append, List.map_cons, List.map_nil]
      rw [hinv, hgi, List.append_assoc]
      have hk : W0.length - rem - cleared = (W0.length - (rem + 1) - cleared) + 1 := by
        omega
      rw [hk, List.replicate_add]
      simp
    | true =>
      by_cases hceq : cleared = W0.length - (rem + 1)
      · have hWl : 0 < (removeN cleared W0).length := by
          rw [removeN_length]; omega
        have hWl' : 0 < (removeN (W0.length - (rem + 1)) W0).length := by
          rw [← hceq]; exact hWl
        have hstep : rejectGo p W0.start W0.length (rem + 1) cleared (removeN cleared W0) =
            rejectGo p W0.start W0.length rem (cleared + 1) (removeN (cleared + 1) W0) := by
          simp only [rejectGo]
          rw [removeN_data, hgi]
          simp [hceq, hWl', removeN]
        rw [hstep]
        apply ih (cleared + 1) (by omega) (by omega)
        rw [hrange]
        simp only [List.map_append, List.map_cons, List.map_nil]
        rw [hinv, hgi]
        have h0 : W0.length - (rem + 1) - cleared = 0 := by omega
        have h1 : W0.length - rem - (cleared + 1) = 0 := by omega
        rw [h0, h1, List.replicate_add]
        simp
      · have hstep : rejectGo p W0.start W0.length (rem + 1) cleared (removeN cleared W0) =
            RejectResult.nonMonotonic (removeN cleared W0) := by
          simp only [rejectGo]
          rw [removeN_data, hgi]
          simp [hceq]
        rw [hstep]
        have hFtake : (flags p W0).take (W0.length - (rem + 1)) =
            List.replicate cleared true ++
              List.replicate (W0.length - (rem + 1) - cleared) false := by
          show ((List.range W0.length).map
              (fun j => p (W0.data.getD ((W0.start + j) % W0.length) 0))).take
                (W0.length - (rem + 1)) = _
          rw [← List.map_take, List.take_range]
          rw [show min (W0.length - (rem + 1)) W0.length = W0.length - (rem + 1) by omega]
          exact hinv
        have hilt : W0.length - (rem + 1) < (flags p W0).length := by
          rw [flags_length]; omega
        have hFdrop : (flags p W0).drop (W0.length - (rem + 1)) =
            true :: (flags p W0).drop (W0.length - (rem + 1) + 1) := by
          rw [List.drop_eq_getElem_cons hilt]
          congr 1
          show (flags p W0).get ⟨W0.length - (rem + 1), hilt⟩ = true
          unfold flags
          simp only [List.get_eq_getElem, List.getElem_map, List.getElem_range]
          exact hgi
        have hsplit : flags p W0 =
            (List.replicate cleared true ++
              List.replicate (W0.length - (rem + 1) - cleared) false) ++
              (true :: (flags p W0).drop (W0.length - (rem + 1) + 1)) := by
          conv_lhs => rw [← List.take_append_drop (W0.length - (rem + 1)) (flags p W0)]
          rw [hFtake, hFdrop]
        have hk1 : W0.length - (rem + 1) - cleared =
            (W0.length - (rem + 1) - cleared - 1) + 1 := by omega
        have hlead : leadTrue (flags p W0) = cleared := by
          rw [hsplit, hk1, List.replicate_succ, List.append_assoc, List.cons_append]
          exact leadTrue_shape_cons _ _
        have hpre : prefixOnly (flags p W0) = false := by
          unfold prefixOnly
          rw [hlead, hsplit, List.append_assoc]
          have hdl := List.drop_left (List.replicate cleared (true : Bool))
              (List.replicate (W0.length - (rem + 1) - cleared) (false : Bool) ++
                (true :: (flags p W0).drop (W0.length - (rem + 1) + 1)))
          rw [List.length_replicate] at hdl
          rw [hdl, List.all_append, List.all_cons]
          simp
        unfold rejectSpec
        rw [hlead, hpre]
        simp

lemma reject_eq_spec (p : Int → Bool) (W : WindowRecord) :
    reject p W = rejectSpec p W := by
  have h := rejectGo_eq_spec p W W.length 0 (Nat.le_refl _) (by omega) ?_
  · exact h
  · rw [Nat.sub_self]
    simp

lemma reject_state_eq (p : Int → Bool) (W : WindowRecord) :
    (reject p W).state = removeN (leadTrue (flags p W)) W := by
  rw [reject_eq_spec]
  unfold rejectSpec
  split <;> rfl

lemma reject_valid (p : Int → Bool) (W : WindowRecord) (h : Valid W) :
    Valid ((reject p W).state) := by
  rw [reject_state_eq]
  refine removeN_valid _ _ h ?_
  have h1 := leadTrue_le (flags p W)
  rw [flags_length] at h1
  exact h1

lemma reachable_valid (W : WindowRecord) (h : Reachable W) : Valid W := by
  induction h with
  | mkInit c hc _ =>
    exact ⟨by simp [initWindow], hc, Nat.zero_le _, hc, hc⟩
  | mkPush W v _ ih => exact push_valid W v ih
  | mkClear W _ ih => exact clear_valid W ih
  | mkReject W p _ ih => exact reject_valid p W ih

lemma rejectLockedGo_lock (p : Int → Except Unit Bool) (s0 l0 : Nat) :
    ∀ (rem cleared : Nat) (W : WindowRecord),
      (rejectLockedGo p s0 l0 rem cleared W).lockHeld =
        holdsLock (rejectLockedGo p s0 l0 rem cleared W).outcome := by
  intro rem
  induction rem with
  | zero => intro cleared W; rfl
  | succ n ih =>
    intro cleared W
    simp only [rejectLockedGo]
    cases hp : p (W.data.getD ((s0 + (l0 - (n + 1))) % l0) 0) with
    | error e => rfl
    | ok b =>
      cases b with
      | false => exact ih _ _
      | true =>
        by_cases hc : cleared = l0 - (n + 1)
        · simp only [if_pos hc]
          by_cases hL : 0 < W.length
          · simp only [if_pos hL]
            exact ih _ _
          · simp only [if_neg hL]
            rfl
        · simp only [if_neg hc]
          rfl

lemma reject_ok_no_removal (p : Int → Bool) (W W' : WindowRecord)
    (hok : reject p W = RejectResult.ok W') (hlen : W'.length = W.length) : W' = W := by
  rw [reject_eq_spec] at hok
  unfold rejectSpec at hok
  split at hok
  · have hW' : W' = removeN (leadTrue (flags p W)) W := by
      injection hok with h
      exact h.symm
    have hle : leadTrue (flags p W) ≤ W.length := by
      have h1 := leadTrue_le (flags p W)
      rw [flags_length] at h1
      exact h1
    have hlen2 : (removeN (leadTrue (flags p W)) W).length = W.length := by
      rw [← hW', hlen]
    rw [removeN_length] at hlen2
    have hzero : leadTrue (flags p W) = 0 := by omega
    rw [hW', hzero]
    rfl
  · exact absurd hok (by simp)

lemma int_tmod_natCast (a b : Nat) :
    Int.tmod ((a : Nat) : Int) ((b : Nat) : Int) = (((a % b : Nat)) : Int) := rfl

/-! ## Claims -/

/-- Claim C1: push on a full window (`length == max_size`) first evicts the
oldest sample (`start` advances by 1 mod capacity, `length` drops by 1) and
then writes the new value at `end`; consequently pushing `capacity + 1` values
`v0..v_capacity` into a fresh window leaves `values()` equal to
`[v1, ..., v_capacity]`, with `v0` evicted. -/
theorem push_fifo_overwrite (c : Nat) (vs : List Int) (W : WindowRecord) (v : Int)
    (hc : 0 < c) (hvs : vs.length = c + 1) :
    (W.length = W.max_size → 0 < W.max_size →
      (push W v).start = (W.start + 1) % W.max_size ∧
      (push W v).length = W.length ∧
      (push W v).data = W.data.set W.end_ v) ∧
    values (pushAll (initWindow c) vs) = vs.tail := by
  constructor
  · intro hfull hm
    rw [push_of_full W v hfull]
    refine ⟨rfl, ?_, rfl⟩
    show W.length - 1 + 1 = W.length
    omega
  · obtain ⟨_, _, _, hvals⟩ := pushAll_spec c hc vs
    rw [hvals, hvs, show c + 1 - c = 1 by omega, List.drop_one]

/-- Witness for claim C1 at capacity 3 and pushes `[10, 20, 30, 40]`. -/
theorem push_fifo_overwrite_witness :
    (0 : Nat) < 3 ∧ ([10, 20, 30, 40] : List Int).length = 3 + 1 ∧
    Wf3.length = Wf3.max_size ∧ 0 < Wf3.max_size ∧
    ((push Wf3 9).start = (Wf3.start + 1) % Wf3.max_size ∧
      (push Wf3 9).length = Wf3.length ∧
      (push Wf3 9).data = Wf3.data.set Wf3.end_ 9) ∧
    values (pushAll (initWindow 3) [10, 20, 30, 40]) = ([10, 20, 30, 40] : List Int).tail :=
  ⟨by decide, by decide, by decide, by decide,
   (push_fifo_overwrite 3 [10, 20, 30, 40] Wf3 9 (by decide) (by decide)).1
     (by decide) (by decide),
   (push_fifo_overwrite 3 [10, 20, 30, 40] Wf3 9 (by decide) (by decide)).2⟩

/-- Claim C2 counterexample: on the reachable wrapped window `W340`
(capacity 3, pushes `10, 20, 30, 40`, so `start = 1`), `reject!` accepting the
two oldest samples completes normally but leaves `end = 1` while
`(start + length) % capacity = (1 + 1) % 3 = 2`: the documented invariant
`end == (start + length) mod capacity` does NOT hold after the completed
operation, because each accepted removal advances `start` modulo the current
`length` instead of modulo the capacity. -/
theorem reject_breaks_end_invariant :
    reject p23 W340 = RejectResult.ok c2state ∧
    (c2state.end_ == (c2state.start + c2state.length) % c2state.max_size) = false := by
  decide

/-- Claim C2 (amended): the invariant `end == (start + length) mod capacity`
is established by `initialize` and `clear` and preserved by `push`, and is
preserved by `reject!` when no sample is removed (the state is then
unchanged); a `reject!` that accepts at least one removal on a wrapped window
can leave it violated (see the counterexample). -/
theorem end_invariant_amended (W : WindowRecord) (v : Int) (c : Nat) (p : Int → Bool)
    (W' : WindowRecord) :
    (SV W → SV (push W v)) ∧ (0 < c → SV (initWindow c)) ∧ (SV W → SV (clearWin W)) ∧
    (reject p W = RejectResult.ok W' → W'.length = W.length → W' = W) := by
  refine ⟨?_, SV_initWindow c, ?_, reject_ok_no_removal p W W'⟩
  · intro hSV
    rcases Nat.lt_or_ge W.length W.max_size with hlt | hge
    · exact (push_spec_not_full W v hSV hlt).1
    · have heq : W.length = W.max_size := le_antisymm hSV.2.2.1 hge
      exact (push_spec_full W v hSV heq).1
  · intro hSV
    obtain ⟨hd, hm, _, _, _⟩ := hSV
    exact ⟨hd, hm, Nat.zero_le _, hm, by simp [clearWin]⟩

/-- Witness for the amended claim C2 on concrete windows. -/
theorem end_invariant_amended_witness :
    SV (push Wf3 9) ∧ SV (initWindow 4) ∧ SV (clearWin Wf3) ∧ Wf3 = Wf3 :=
  ⟨(end_invariant_amended Wf3 9 4 pfalse Wf3).1 (by decide),
   (end_invariant_amended Wf3 9 4 pfalse Wf3).2.1 (by decide),
   (end_invariant_amended Wf3 9 4 pfalse Wf3).2.2.1 (by decide),
   (end_invariant_amended Wf3 9 4 pfalse Wf3).2.2.2 (by decide) (by decide)⟩

/-- Claim C3: whenever the predicate results are not a contiguous prefix of
`true`s (i.e. the k-th `true` fails to occur at logical position k, which is
exactly `prefixOnly (flags p W) = false`), `reject!` raises
NonMonotonicRemoval, and the window is left with exactly the removals made
before the violation applied — the `leadTrue` leading accepted removals —
and not rolled back. -/
theorem reject_nonmonotonic_partial (p : Int → Bool) (W : WindowRecord)
    (h : prefixOnly (flags p W) = false) :
    reject p W = RejectResult.nonMonotonic (removeN (leadTrue (flags p W)) W) := by
  rw [reject_eq_spec]
  unfold rejectSpec
  rw [h]
  simp

/-- Witness for claim C3: window `[1, 2, 3, 4, 5]` with predicate
`x == 1 or x == 3` raises NonMonotonicRemoval with `1` removed and
`[2, 3, 4, 5]` remaining. -/
theorem reject_nonmonotonic_partial_witness :
    prefixOnly (flags p13 W5) = false ∧
    reject p13 W5 = RejectResult.nonMonotonic (removeN (leadTrue (flags p13 W5)) W5) ∧
    values (RejectResult.state (reject p13 W5)) = [2, 3, 4, 5] :=
  ⟨by decide, reject_nonmonotonic_partial p13 W5 (by decide), by decide⟩

/-- Claim C4 counterexample: on the capacity-4 window `[10, 20, 30, 40]` with
predicate `x == 10`, the C loop (read index `(start0 + i) % length0` with the
snapshots taken before the loop — the modulus does NOT shrink) removes `10`
and returns normally, while the claim's shrinking-modulus reading
(`rejectShrink`) re-reads slot 0 at `i = 3` (since `(0 + 3) % 3 = 0`), sees
`10` again and raises NonMonotonicRemoval: the two disagree, refuting the
claim that the modulus used for the index computation shrinks as removal
proceeds. -/
theorem reject_modulus_not_shrinking :
    reject p10 W4 = RejectResult.ok ⟨4, 3, 1, 0, [10, 20, 30, 40]⟩ ∧
    rejectShrink p10 W4 = RejectResult.nonMonotonic ⟨4, 3, 1, 0, [10, 20, 30, 40]⟩ := by
  decide

/-- Claim C4 (amended): the physical index used to read the sample at logical
position `i` is `(start + i) mod length` where `start` and `length` are the
local copies captured at entry to `reject!`; `window->length` is decremented
by each accepted removal, but the read modulus stays the captured `length`.
Formally, `reject!` coincides with `rejectSpec`, which is computed entirely
from the entry snapshot (`flags`, whose i-th entry reads
`data[(start + i) % length]` of the ORIGINAL state). -/
theorem reject_fixed_modulus (p : Int → Bool) (W : WindowRecord) :
    reject p W = rejectSpec p W :=
  reject_eq_spec p W

/-- Claim C5 counterexample: `length ≤ capacity` does hold throughout, but
after `reject!` has broken the `end` invariant on a wrapped window, a later
push on a full window does NOT remove the oldest live sample: the concrete
operation sequence behind `Wfull` (capacity 3: pushes `10, 20, 30, 40`, then
`reject!` of the two oldest, then pushes `50, 60`) yields the full window
`values = [50, 60, 40]`, and `push 70` produces `values = [60, 70, 50]` — the
oldest sample `50` is still present and `40` was destroyed instead, instead
of the claimed `[60, 40, 70]`. -/
theorem push_after_reject_not_oldest :
    Wfull.length = Wfull.max_size ∧ values Wfull = [50, 60, 40] ∧
    values (push Wfull 70) = [60, 70, 50] ∧
    (((values Wfull).tail ++ [70]) == values (push Wfull 70)) = false ∧
    (50 : Int) ∈ values (push Wfull 70) := by
  decide

/-- Claim C5 (amended): for every sequence of operations (pushes, clears and
`reject!`s from a fresh window), `length ≤ capacity` always holds; and for
every sequence of PUSHES from a fresh window, once `length == capacity`,
each further push keeps `length` at capacity and evicts exactly the oldest
sample (`values` becomes its tail plus the new value). After a `reject!` that
broke the `end` invariant the eviction clause can fail (see the
counterexample), so it is restricted to push-only histories as in §8 of the
spec. -/
theorem capacity_bound_amended (W : WindowRecord) (c : Nat) (vs : List Int) (v : Int) :
    (Reachable W → W.length ≤ W.max_size) ∧
    (0 < c → (pushAll (initWindow c) vs).length = (pushAll (initWindow c) vs).max_size →
      (push (pushAll (initWindow c) vs) v).length = (pushAll (initWindow c) vs).length ∧
      values (push (pushAll (initWindow c) vs) v) =
        (values (pushAll (initWindow c) vs)).tail ++ [v]) := by
  constructor
  · intro h
    exact (reachable_valid W h).2.2.1
  · intro hc hfull
    obtain ⟨sv, _hmax, _hlen, _⟩ := pushAll_spec c hc vs
    obtain ⟨_, hv, hl⟩ := push_spec_full _ v sv hfull
    exact ⟨by rw [hl, hfull], hv⟩

/-- Witness for the amended claim C5 at capacity 2. -/
theorem capacity_bound_amended_witness :
    (initWindow 2).length ≤ (initWindow 2).max_size ∧
    (push (pushAll (initWindow 2) [7, 8]) 9).length = (pushAll (initWindow 2) [7, 8]).length ∧
    values (push (pushAll (initWindow 2) [7, 8]) 9) =
      (values (pushAll (initWindow 2) [7, 8])).tail ++ [9] :=
  ⟨(capacity_bound_amended (initWindow 2) 2 [7, 8] 9).1
      (Reachable.mkInit 2 (by decide) (by decide)),
   ((capacity_bound_amended (initWindow 2) 2 [7, 8] 9).2 (by decide) (by decide)).1,
   ((capacity_bound_amended (initWindow 2) 2 [7, 8] 9).2 (by decide) (by decide)).2⟩

/-- Claim C6: `values()` returns exactly `length` samples, and the sample at
logical position `i` is `data[(start + i) mod capacity]` (oldest to newest). -/
theorem values_oldest_to_newest (W : WindowRecord) (i : Nat) (h : i < W.length) :
    (values W).length = W.length ∧
    (values W).getD i 0 = W.data.getD ((W.start + i) % W.max_size) 0 := by
  constructor
  · simp [values]
  · unfold values
    exact getD_map_range _ 0 _ i h

/-- Witness for claim C6 on `W5` at position 2. -/
theorem values_oldest_to_newest_witness :
    2 < W5.length ∧ (values W5).length = W5.length ∧
    (values W5).getD 2 0 = W5.data.getD ((W5.start + 2) % W5.max_size) 0 :=
  ⟨by decide, (values_oldest_to_newest W5 2 (by decide)).1,
   (values_oldest_to_newest W5 2 (by decide)).2⟩

/-- Claim C7: on a non-empty window, `last()` reads
`data[(start + length - 1) mod capacity]` (the C index computation is
non-negative there, so the truncated `%` agrees with the Nat modulus) and this
equals `values()[length - 1]`. -/
theorem last_values_relation (W : WindowRecord) (hd : W.data.length = W.max_size)
    (hm : 0 < W.max_size) (hl : 0 < W.length) :
    last W = some ((values W).getD (W.length - 1) 0) ∧
    lastIndex W = ((W.start + W.length - 1) % W.max_size : Nat) := by
  have hcast : (W.start : Int) + (W.length : Int) - 1 =
      ((W.start + W.length - 1 : Nat) : Int) := by omega
  have hidx : lastIndex W = ((W.start + W.length - 1) % W.max_size : Nat) := by
    unfold lastIndex
    rw [hcast]
    exact int_tmod_natCast _ _
  refine ⟨?_, hidx⟩
  unfold last readData
  rw [hidx]
  have hk_lt : (W.start + W.length - 1) % W.max_size < W.data.length := by
    rw [hd]; exact Nat.mod_lt _ hm
  rw [if_pos ⟨Int.natCast_nonneg _, by rw [Int.toNat_natCast]; exact hk_lt⟩]
  rw [Int.toNat_natCast]
  congr 1
  unfold values
  rw [getD_map_range _ 0 W.length (W.length - 1) (by omega)]
  rw [show W.start + W.length - 1 = W.start + (W.length - 1) by omega]

/-- Witness for claim C7 on the capacity-3 window holding `[4, 5]`. -/
theorem last_values_relation_witness :
    W45.data.length = W45.max_size ∧ 0 < W45.max_size ∧ 0 < W45.length ∧
    last W45 = some ((values W45).getD (W45.length - 1) 0) :=
  ⟨by decide, by decide, by decide,
   (last_values_relation W45 (by decide) (by decide) (by decide)).1⟩

/-- Claim C8: on a freshly initialized window (`start = 0`, `length = 0`,
capacity 3) the C index computation of `last()` is
`(0 + 0 - 1) % 3 = -1` under truncated `int` division, so the read
`data[-1]` is OUT of the data array (modelled as `none`), contradicting the
claim that the index actually read always lies within the array. -/
theorem last_empty_reads_index_neg_one :
    lastIndex (initWindow 3) = -1 ∧ last (initWindow 3) = none := by
  decide

/-- Claim C9 counterexample: a predicate (Ruby block) that raises during
`reject!` propagates the error while the cross-process mutex is still held
(`rb_yield` is called inside the critical section and only the
NonMonotonicRemoval path unlocks before raising), and a failing
`RB_NUM2INT` conversion in `push` likewise leaves the mutex held — both
refute the claim that no error path leaves the mutex held. -/
theorem error_paths_hold_lock :
    (rejectLocked pexc W1p).outcome = Outcome.predExc ∧
    (rejectLocked pexc W1p).lockHeld = true ∧
    (pushLocked W1p none).outcome = Outcome.convExc ∧
    (pushLocked W1p none).lockHeld = true := by
  decide

/-- Claim C9 (amended): the mutex is released on normal completion and —
by the explicit `sem_meta_unlock` before `rb_raise` — before
NonMonotonicRemoval is surfaced; but it is left held exactly when the
user predicate raises during `reject!` (or the modulus-by-zero UB marker
fires, which never happens on real runs) and when the integer conversion of
the pushed value fails in `push`. -/
theorem lock_release_amended (p : Int → Except Unit Bool) (W : WindowRecord)
    (v : Option Int) :
    (rejectLocked p W).lockHeld = holdsLock (rejectLocked p W).outcome ∧
    (pushLocked W v).lockHeld = v.isNone := by
  constructor
  · exact rejectLockedGo_lock p W.start W.length W.length 0 W
  · cases v with
    | none => rfl
    | some x => rfl

/-- Claim C10: no modulus operation in `reject!` ever divides by zero: at
every accepted removal the current `window->length` is at least 1 (and the
read modulus `length0` is positive whenever an iteration runs), so the
explicit UB marker `modZero` is never produced, for any window state and any
predicate. -/
theorem reject_no_mod_zero (p : Int → Bool) (W : WindowRecord) :
    RejectResult.isModZero (reject p W) = false := by
  rw [reject_eq_spec]
  unfold rejectSpec
  split <;> rfl

end SlidingWindow
